import Mathlib

/-!
Shallow embedding of `src/utils/gmm_cv.py` (trajectory_classification).

The library capabilities the code imports are modelled as explicit oracle
parameters, exactly at the granularity the source uses them:

* `sklearn.mixture.GaussianMixture` is a structure `GMM` holding the fitted
  model's per-point log-density `logpdf` and its `bic` function; fitting
  (`GaussianMixture(n_components=nc).fit(X)`) is an oracle
  `fitO : Nat → List Pt → GMM`.  Crucially, sklearn's `model.score(X)` is the
  AVERAGE log-likelihood of the samples — a single scalar, not a per-sample
  vector — and is embedded as such.
* `np.random.choice` subsampling is an oracle `subO : List Pt → List Pt`
  (the source draws it unseeded; no claim depends on which rows it picks).
* `sklearn.metrics.roc_curve` / `auc` are oracles `rocO` / `aucO`.

Data frames are lists of records carrying their pandas row index (`idx`).
Machine floats are modelled as `Rat` (exact arithmetic); `np.inf`, which the
source uses only as the initial BIC sentinel, is modelled as `none` in an
`Option Rat`.  Python code paths that raise (the `[].score` AttributeError on
the `-1` sentinel model, `labels[k]` IndexError) are modelled with `Option`.
`pandas.reindex` requires a unique source index (it raises on duplicates) and
is modelled as first-match lookup, used by the theorems only under a
no-duplicate-index hypothesis.
-/

set_option maxHeartbeats 1000000

/-- A spatial point: (lons, lats). -/
abbrev Pt := Rat × Rat

/-- A fitted `GaussianMixture` model, abstracted to what the source consumes:
its per-point log-density and its BIC functional. -/
structure GMM where
  logpdf : Pt → Rat
  bic : List Pt → Rat

/-- sklearn `GaussianMixture.score(X)`: the average log-likelihood of the
samples in `X` — one scalar for the whole input, NOT one value per sample
(per-sample values would be `score_samples`). -/
def GMM.score (g : GMM) (xs : List Pt) : Rat :=
  (xs.map g.logpdf).sum / (xs.length : Rat)

/-- A row of `data_original`: pandas row index `idx` plus the columns the
source reads (`lons`, `lats`, `id_traj`). -/
structure Row where
  idx : Nat
  lons : Rat
  lats : Rat
  id_traj : Nat
deriving DecidableEq, Repr

/-- A row of a per-fold test frame `data_`: the preserved original row index,
the `cv` column, and the `score_0 .. score_{c-1}` columns accumulated so far. -/
structure STFRow where
  idx : Nat
  cv : Nat
  scores : List Rat
deriving DecidableEq, Repr

/-- A row of a score table handed to `create_cumsum_data` / `create_roc_dict`:
row index, `id_traj`, and the `score_*` columns. -/
structure SRow where
  idx : Nat
  id_traj : Nat
  scores : List Rat
deriving DecidableEq, Repr

/-- A row of the joined output `data_original.join(...)`: the original row plus
the joined-in `(cv, scores)` columns, `none` when the join found no match
(pandas NaN row). -/
structure JRow where
  row : Row
  ext : Option (Nat × List Rat)
deriving DecidableEq, Repr

/-- Python `range(s, s+n)` as a list. -/
def rangeFrom (s : Nat) : Nat → List Nat
  | 0 => []
  | n + 1 => s :: rangeFrom (s + 1) n

/-- Concatenation of a list of lists (`pd.concat` on row lists). -/
def catLists : List (List α) → List α
  | [] => []
  | l :: rest => l ++ catLists rest

/-- Python `enumerate`, starting at `k`. -/
def enumerateFrom (k : Nat) : List α → List (Nat × α)
  | [] => []
  | a :: rest => (k, a) :: enumerateFrom (k + 1) rest

/-- Number of occurrences of `j` in a list of row indices. -/
def countOcc (j : Nat) : List Nat → Nat
  | [] => 0
  | a :: rest => (if a = j then 1 else 0) + countOcc j rest

/-- BIC value of the model the fit oracle produces for `nc` components on
`coords` (`gmm.bic(coord_tc)` for `gmm = GaussianMixture(nc).fit(coord_tc)`). -/
def bicAt (fitO : Nat → List Pt → GMM) (coords : List Pt) (nc : Nat) : Rat :=
  (fitO nc coords).bic coords

/-- One iteration of the loop in `nb_clust_with_bic_`: fit `nc` components,
compute BIC, and keep the better of the accumulator and the new candidate.
Python `min([nc_bic, [nc, bic, gmm]], key=lambda x: x[1])` keeps the FIRST
element on ties, i.e. the accumulator; the `np.inf` initial BIC is `none` and
loses to any real BIC. -/
def bicStep (fitO : Nat → List Pt → GMM) (coords : List Pt)
    (acc : Int × Option Rat × Option GMM) (nc : Nat) : Int × Option Rat × Option GMM :=
  let gmm := fitO nc coords
  let bic := gmm.bic coords
  match acc.2.1 with
  | none => ((nc : Int), some bic, some gmm)
  | some b0 => if bic < b0 then ((nc : Int), some bic, some gmm) else acc

/-- The candidate loop of `nb_clust_with_bic_`. -/
def bicLoop (fitO : Nat → List Pt → GMM) (coords : List Pt) :
    List Nat → (Int × Option Rat × Option GMM) → Int × Option Rat × Option GMM
  | [], acc => acc
  | nc :: rest, acc => bicLoop fitO coords rest (bicStep fitO coords acc nc)

/-- `nb_clust_with_bic_(coord_tc, min_nc, max_nc)`: try every component count
in `range(min_nc, min(max_nc, len(coord_tc)))`, keep the candidate with the
least BIC, starting from the sentinel `[-1, np.inf, []]` (here
`(-1, none, none)`). -/
def nb_clust_with_bic_ (fitO : Nat → List Pt → GMM) (coord_tc : List Pt)
    (min_nc max_nc : Nat) : Int × Option Rat × Option GMM :=
  let max_ncf := min max_nc coord_tc.length
  bicLoop fitO coord_tc (rangeFrom min_nc (max_ncf - min_nc)) (-1, none, none)

/-- Elementwise addition of two score vectors (one entry per score column). -/
def vadd (a b : List Rat) : List Rat :=
  List.zipWith (· + ·) a b

/-- One step of the grouped cumulative sum: look up the running sums for this
row's `id_traj` (first match in the accumulator; absent means no earlier row of
this trajectory, i.e. running sums zero), add this row's scores, emit the row
with the updated sums and push the new sums for the trajectory. -/
def cumsumStep (st : List (Nat × List Rat) × List SRow) (r : SRow) :
    List (Nat × List Rat) × List SRow :=
  let prev := ((st.1.find? (fun q => q.1 == r.id_traj)).map (fun q => q.2)).getD
    (List.replicate r.scores.length 0)
  let cur := vadd prev r.scores
  ((r.id_traj, cur) :: st.1, st.2 ++ [{ r with scores := cur }])

/-- Row-order traversal for the grouped cumulative sum. -/
def cumsumLoop : List SRow → (List (Nat × List Rat) × List SRow) →
    List (Nat × List Rat) × List SRow
  | [], st => st
  | r :: rest, st => cumsumLoop rest (cumsumStep st r)

/-- `create_cumsum_data(data)`: pandas
`data.groupby("id_traj")[score_columns].apply(lambda t: t.cumsum())` — within
each `id_traj` group, in the row order presented, replace every score column
value by its running sum; rows stay at their original index. -/
def create_cumsum_data (data : List SRow) : List SRow :=
  (cumsumLoop data ([], [])).2

/-- Specification-side per-group cumulative sum: given the running sums so far
(`none` before the first row of the group), emit the successive partial sums of
a group's score vectors. -/
def groupCumsum (acc : Option (List Rat)) : List (List Rat) → List (List Rat)
  | [] => []
  | s :: rest =>
    let c := vadd (acc.getD (List.replicate s.length 0)) s
    c :: groupCumsum (some c) rest

/-- Total of a group's score vectors (the value the terminal cumulative row
should carry). -/
def groupTotal : List (List Rat) → Option (List Rat)
  | [] => none
  | s :: rest => some (rest.foldl vadd s)

/-- `train_test_split(data_original, cv_index_i, i)`: boolean mask
`data_original.id_traj.isin(cv_index_i)` sends a row to test iff its
trajectory id is held out; train keeps `(lons, lats, id_traj)`, test keeps
`(lons, lats)`, and the returned frame `data_` is indexed by the test rows'
original index with a constant column `cv = i` (and, as yet, no score
columns). -/
def train_test_split (data_original : List Row) (cv_index_i : List Nat) (i : Nat) :
    List (Rat × Rat × Nat) × List Pt × List STFRow :=
  let data_train := data_original.filter (fun r => !(decide (r.id_traj ∈ cv_index_i)))
  let traj_coord_train := data_train.map (fun r => (r.lons, r.lats, r.id_traj))
  let data_test := data_original.filter (fun r => decide (r.id_traj ∈ cv_index_i))
  let traj_coord_test := data_test.map (fun r => (r.lons, r.lats))
  let data_ := data_test.map (fun r => ({ idx := r.idx, cv := i, scores := [] } : STFRow))
  (traj_coord_train, traj_coord_test, data_)

/-- `np.where(labels == n_class)[0]`: the positions of `labels` holding the
value `n_class`. -/
def id_traj_class_n (labels : List Nat) (n_class : Nat) : List Nat :=
  (rangeFrom 0 labels.length).filter (fun j => decide (labels.getD j 0 = n_class))

/-- The class-filter step of the fold loop:
`traj_coord_train[np.isin(traj_coord_train[:, -1], id_traj_class_n)][:, :-1]` —
keep the training points whose trailing `id_traj` component is a position where
`labels` equals the class, then drop that component. -/
def classTrainCoords (labels : List Nat) (n_class : Nat)
    (traj_coord_train : List (Rat × Rat × Nat)) : List Pt :=
  (traj_coord_train.filter
    (fun t => decide (t.2.2 ∈ id_traj_class_n labels n_class))).map
    (fun t => (t.1, t.2.1))

/-- The body of the per-class loop of `build_cross_clust_mixt_cv`: class
filter, subsample above 10000 points, BIC model selection, then
`gmm.score(traj_coord_test)` — sklearn's single aggregate average
log-likelihood — assigned to the frame column `score_<n_class>`, which pandas
broadcasts to every row.  If model selection returned the `[]` sentinel the
`.score` attribute access raises (`none`). -/
def classStep (fitO : Nat → List Pt → GMM) (subO : List Pt → List Pt)
    (labels : List Nat) (tct : List (Rat × Rat × Nat)) (tcs : List Pt)
    (acc : List (Nat × GMM) × List STFRow) (n_class : Nat) :
    Option (List (Nat × GMM) × List STFRow) :=
  let coord_tc0 := classTrainCoords labels n_class tct
  let coord_tc := if coord_tc0.length > 10000 then subO coord_tc0 else coord_tc0
  match nb_clust_with_bic_ fitO coord_tc 2 20 with
  | (_, _, none) => none
  | (_, _, some gmm) =>
    let scores := gmm.score tcs
    some (acc.1 ++ [(n_class, gmm)],
      acc.2.map (fun x => { x with scores := x.scores ++ [scores] }))

/-- The per-class loop (`for n_class in range(nb_traj_class)`), propagating a
raised exception as `none`. -/
def classLoop (fitO : Nat → List Pt → GMM) (subO : List Pt → List Pt)
    (labels : List Nat) (tct : List (Rat × Rat × Nat)) (tcs : List Pt) :
    List Nat → (List (Nat × GMM) × List STFRow) →
    Option (List (Nat × GMM) × List STFRow)
  | [], acc => some acc
  | c :: rest, acc =>
    match classStep fitO subO labels tct tcs acc c with
    | none => none
    | some acc2 => classLoop fitO subO labels tct tcs rest acc2

/-- One fold of `build_cross_clust_mixt_cv`: split, then run the per-class
loop, producing the fold's `{n_class: gmm}` mapping (insertion order) and its
filled-in test frame. -/
def runFold (fitO : Nat → List Pt → GMM) (subO : List Pt → List Pt)
    (data_original : List Row) (labels : List Nat) (nb_traj_class : Nat)
    (cv_index_i : List Nat) (i : Nat) :
    Option (List (Nat × GMM) × List STFRow) :=
  let t := train_test_split data_original cv_index_i i
  classLoop fitO subO labels t.1 t.2.1 (rangeFrom 0 nb_traj_class) ([], t.2.2)

/-- The fold loop (`for i, cv_index_i in enumerate(cv_list)`), sequencing the
folds and propagating a raised exception as `none`. -/
def foldsLoop (fitO : Nat → List Pt → GMM) (subO : List Pt → List Pt)
    (data_original : List Row) (labels : List Nat) (nb_traj_class : Nat) :
    List (Nat × List Nat) → Option (List (List (Nat × GMM) × List STFRow))
  | [] => some []
  | (i, s) :: rest =>
    match runFold fitO subO data_original labels nb_traj_class s i with
    | none => none
    | some f =>
      match foldsLoop fitO subO data_original labels nb_traj_class rest with
      | none => none
      | some fs => some (f :: fs)

/-- All folds of `build_cross_clust_mixt_cv`, in order. -/
def runFolds (fitO : Nat → List Pt → GMM) (subO : List Pt → List Pt)
    (data_original : List Row) (cv_list : List (List Nat))
    (nb_traj_class : Nat) (labels : List Nat) :
    Option (List (List (Nat × GMM) × List STFRow)) :=
  foldsLoop fitO subO data_original labels nb_traj_class (enumerateFrom 0 cv_list)

/-- `build_cross_clust_mixt_cv(data_original, cv_list, nb_traj_class, labels)`:
run every fold, then
`data_original.join(pd.concat(data_list).reindex(data_original.index))` —
reindex the concatenated fold frames to the original row order and left-join
them onto `data_original` (a row with no match becomes a NaN extension,
`ext = none`). -/
def build_cross_clust_mixt_cv (fitO : Nat → List Pt → GMM)
    (subO : List Pt → List Pt) (data_original : List Row)
    (cv_list : List (List Nat)) (nb_traj_class : Nat) (labels : List Nat) :
    Option (List (List (Nat × GMM)) × List JRow) :=
  match runFolds fitO subO data_original cv_list nb_traj_class labels with
  | none => none
  | some folds =>
    let concatd := catLists (folds.map (fun f => f.2))
    some (folds.map (fun f => f.1),
      data_original.map (fun r =>
        { row := r,
          ext := (concatd.find? (fun x => x.idx == r.idx)).map
            (fun x => (x.cv, x.scores)) }))

/-- The concatenation `pd.concat(data_list)` of the fold test frames (empty if
the run raised). -/
def concatFrames (fitO : Nat → List Pt → GMM) (subO : List Pt → List Pt)
    (data_original : List Row) (cv_list : List (List Nat))
    (nb_traj_class : Nat) (labels : List Nat) : List STFRow :=
  catLists (((runFolds fitO subO data_original cv_list nb_traj_class labels).getD
    []).map (fun f => f.2))

/-- The reconstructed score table returned by `build_cross_clust_mixt_cv`
(empty if the run raised). -/
def scoreTable (fitO : Nat → List Pt → GMM) (subO : List Pt → List Pt)
    (data_original : List Row) (cv_list : List (List Nat))
    (nb_traj_class : Nat) (labels : List Nat) : List JRow :=
  ((build_cross_clust_mixt_cv fitO subO data_original cv_list nb_traj_class
    labels).map (fun p => p.2)).getD []

/-- Insertion into an ascending duplicate-free list of trajectory ids. -/
def insertSorted (a : Nat) : List Nat → List Nat
  | [] => [a]
  | b :: t => if a < b then a :: b :: t else if a = b then b :: t else b :: insertSorted a t

/-- The ascending duplicate-free list of keys of a pandas groupby (pandas sorts
group keys). -/
def sortedUnique (l : List Nat) : List Nat :=
  l.foldr insertSorted []

/-- Python `[labels[k] for k in ids]`: index every id into `labels`,
propagating the IndexError (`none`) raised by an out-of-range id. -/
def lookupAll (labels : List Nat) : List Nat → Option (List Nat)
  | [] => some []
  | k :: rest =>
    match labels.get? k with
    | none => none
    | some v =>
      match lookupAll labels rest with
      | none => none
      | some vs => some (v :: vs)

/-- Column `score_<tc>` of an optional frame row (`0` stands for the values a
well-formed pipeline never reads: a missing row or a missing column). -/
def scoreCol (tc : Nat) (o : Option SRow) : Rat :=
  ((o.map (fun r => r.scores.getD tc 0)).getD 0)

/-- `create_roc_dict(data_original, data_score, labels, nb_tc)`: cumulative
sums of the score columns, re-attach `data_original.id_traj` (index-aligned in
pandas; the pipeline hands frames sharing `data_original`'s index in the same
order, modelled positionally), take the last row per trajectory
(`groupby("id_traj").last()`, keys ascending), look up each trajectory's
cluster (`labels[k]`, an IndexError — `none` — when `k` is out of range), and
for each cluster label `tc` delegate to the ROC primitives with the membership
indicator as ground truth, the terminal cumulative `score_tc` as score, and
`pos_label=1` (`true`). -/
def create_roc_dict (rocO : List Bool → List Rat → Bool → List Rat × List Rat × List Rat)
    (aucO : List Rat → List Rat → Rat) (data_original : List Row)
    (data_score : List SRow) (labels : List Nat) (nb_tc : Nat) :
    Option (List (Nat × (List Rat × List Rat × Rat))) :=
  let data_cumsum0 := create_cumsum_data data_score
  let data_cumsum := List.zipWith
    (fun (c : SRow) (o : Row) => { c with id_traj := o.id_traj }) data_cumsum0 data_original
  let trajIds := sortedUnique (data_cumsum.map SRow.id_traj)
  match lookupAll labels trajIds with
  | none => none
  | some traj_clust =>
    some ((rangeFrom 0 nb_tc).map (fun tc =>
      let y := traj_clust.map (fun l => l == tc)
      let scores := trajIds.map (fun k =>
        scoreCol tc ((data_cumsum.filter (fun r => r.id_traj == k)).getLast?))
      let t := rocO y scores true
      (tc, (t.1, t.2.1, aucO t.1 t.2.1))))

/-- A trivial fit oracle: every model has log-density 0 and BIC 0. -/
def trivFit : Nat → List Pt → GMM :=
  fun _ _ => { logpdf := fun _ => 0, bic := fun _ => 0 }

/-- A fit oracle whose models score a point by its first coordinate (used to
exhibit test points with distinct per-point log-likelihoods). -/
def projFit : Nat → List Pt → GMM :=
  fun _ _ => { logpdf := fun p => p.1, bic := fun _ => 0 }

/-- A fit oracle whose BIC is the squared distance of the component count from
3 (so the BIC minimum over counts is interior and unique). -/
def quadFit : Nat → List Pt → GMM :=
  fun nc _ => { logpdf := fun _ => 0, bic := fun _ => ((nc : Rat) - 3) ^ 2 }

/-- A trivial subsample oracle (never consulted below 10001 points). -/
def trivSub : List Pt → List Pt := fun l => l

/-- A trivial ROC oracle. -/
def trivRoc : List Bool → List Rat → Bool → List Rat × List Rat × List Rat :=
  fun _ _ _ => ([], [], [])

/-- A trivial AUC oracle. -/
def trivAuc : List Rat → List Rat → Rat := fun _ _ => 0

/-- Two trajectories (ids 0, 1) of three points each; `labels = [0, 0]`. -/
def dataW : List Row :=
  [⟨0, 0, 0, 0⟩, ⟨1, 1, 0, 0⟩, ⟨2, 2, 0, 0⟩,
   ⟨3, 0, 1, 1⟩, ⟨4, 1, 1, 1⟩, ⟨5, 2, 1, 1⟩]

/-- Trajectory 0 with two points of distinct first coordinate (so distinct
per-point log-likelihoods under `projFit`), trajectory 1 with three training
points. -/
def dataW4 : List Row :=
  [⟨0, 0, 0, 0⟩, ⟨1, 1, 1, 0⟩, ⟨2, 5, 5, 1⟩, ⟨3, 6, 6, 1⟩, ⟨4, 7, 7, 1⟩]

/-- Trajectory 0 (three points, labelled) plus trajectory 5, whose id is out of
range for `labels = [0]`. -/
def dataC10 : List Row :=
  [⟨0, 0, 0, 0⟩, ⟨1, 1, 0, 0⟩, ⟨2, 2, 0, 0⟩, ⟨3, 9, 9, 5⟩]

/-- Score-table fixture for the aggregation claims: trajectory 0 (two rows),
trajectory 1 (one row), two score columns. -/
def dataS9 : List SRow :=
  [⟨0, 0, [1, 2]⟩, ⟨1, 0, [3, 4]⟩, ⟨2, 1, [5, 6]⟩]

/-- The `data_original` rows matching `dataS9`. -/
def dataO9 : List Row :=
  [⟨0, 0, 0, 0⟩, ⟨1, 1, 0, 0⟩, ⟨2, 2, 0, 1⟩]

/-- Three-row single-trajectory score table with one score column, for the
cumulative-sum shape [s1, s1+s2, s1+s2+s3]. -/
def dataS8 : List SRow :=
  [⟨0, 7, [1]⟩, ⟨1, 7, [2]⟩, ⟨2, 7, [4]⟩]

/-- Four training points, enough for candidate counts {2, 3}. -/
def coords4 : List Pt :=
  [(0, 0), (1, 0), (0, 1), (1, 1)]

theorem mem_rangeFrom : ∀ (n s x : Nat), x ∈ rangeFrom s n ↔ s ≤ x ∧ x < s + n := by
  intro n
  induction n with
  | zero =>
    intro s x
    constructor
    · intro h; cases h
    · intro h; exact absurd h (by omega)
  | succ k ih =>
    intro s x
    simp only [rangeFrom, List.mem_cons, ih]
    omega

theorem pairwise_rangeFrom : ∀ (n s : Nat), (rangeFrom s n).Pairwise (· < ·) := by
  intro n
  induction n with
  | zero => intro s; simp [rangeFrom]
  | succ k ih =>
    intro s
    simp only [rangeFrom, List.pairwise_cons]
    refine ⟨fun x hx => ?_, ih (s + 1)⟩
    have := (mem_rangeFrom k (s + 1) x).mp hx
    omega

theorem bicLoop_first_min (fitO : Nat → List Pt → GMM) (coords : List Pt) :
    ∀ (l : List Nat) (m : Nat),
      (∀ x ∈ l, m < x) → l.Pairwise (· < ·) →
      ∃ n : Nat,
        bicLoop fitO coords l ((m : Int), some (bicAt fitO coords m), some (fitO m coords))
          = ((n : Int), some (bicAt fitO coords n), some (fitO n coords))
        ∧ (n = m ∨ n ∈ l)
        ∧ bicAt fitO coords n ≤ bicAt fitO coords m
        ∧ (∀ x ∈ l, bicAt fitO coords n ≤ bicAt fitO coords x)
        ∧ (∀ x, (x = m ∨ x ∈ l) → x < n → bicAt fitO coords n < bicAt fitO coords x) := by
  intro l
  induction l with
  | nil =>
    intro m _ _
    exact ⟨m, rfl, Or.inl rfl, le_refl _, by simp, fun x hx hlt => by
      rcases hx with rfl | hx
      · exact absurd hlt (lt_irrefl x)
      · simp at hx⟩
  | cons c rest ih =>
    intro m hm hp
    have hmc : m < c := hm c (List.mem_cons_self c rest)
    have hrest_gt_c : ∀ x ∈ rest, c < x := (List.pairwise_cons.mp hp).1
    have hp' : rest.Pairwise (· < ·) := (List.pairwise_cons.mp hp).2
    show ∃ n, bicLoop fitO coords rest
        (bicStep fitO coords ((m : Int), some (bicAt fitO coords m), some (fitO m coords)) c)
        = _ ∧ _
    by_cases hcm : bicAt fitO coords c < bicAt fitO coords m
    · have hstep : bicStep fitO coords
          ((m : Int), some (bicAt fitO coords m), some (fitO m coords)) c
          = ((c : Int), some (bicAt fitO coords c), some (fitO c coords)) := by
        have hcm2 : (fitO c coords).bic coords < bicAt fitO coords m := hcm
        simp only [bicStep]
        rw [if_pos hcm2]
        rfl
      rw [hstep]
      obtain ⟨n, heq, hmem, hle, hall, hfirst⟩ := ih c hrest_gt_c hp'
      refine ⟨n, heq, ?_, ?_, ?_, ?_⟩
      · rcases hmem with rfl | hmem
        · exact Or.inr (List.mem_cons_self n rest)
        · exact Or.inr (List.mem_cons_of_mem c hmem)
      · exact le_of_lt (lt_of_le_of_lt hle hcm)
      · intro x hx
        rcases List.mem_cons.mp hx with rfl | hx
        · exact hle
        · exact hall x hx
      · intro x hx hlt
        rcases hx with rfl | hx
        · exact lt_of_le_of_lt hle hcm
        · rcases List.mem_cons.mp hx with rfl | hx
          · exact hfirst x (Or.inl rfl) hlt
          · exact hfirst x (Or.inr hx) hlt
    · have hstep : bicStep fitO coords
          ((m : Int), some (bicAt fitO coords m), some (fitO m coords)) c
          = ((m : Int), some (bicAt fitO coords m), some (fitO m coords)) := by
        have hcm2 : ¬ (fitO c coords).bic coords < bicAt fitO coords m := hcm
        simp only [bicStep]
        rw [if_neg hcm2]
      rw [hstep]
      have hm' : ∀ x ∈ rest, m < x := fun x hx => lt_trans hmc (hrest_gt_c x hx)
      obtain ⟨n, heq, hmem, hle, hall, hfirst⟩ := ih m hm' hp'
      have hmc' : bicAt fitO coords m ≤ bicAt fitO coords c := not_lt.mp hcm
      refine ⟨n, heq, ?_, hle, ?_, ?_⟩
      · rcases hmem with rfl | hmem
        · exact Or.inl rfl
        · exact Or.inr (List.mem_cons_of_mem c hmem)
      · intro x hx
        rcases List.mem_cons.mp hx with rfl | hx
        · exact le_trans hle hmc'
        · exact hall x hx
      · intro x hx hlt
        rcases hx with rfl | hx
        · exact hfirst x (Or.inl rfl) hlt
        · rcases List.mem_cons.mp hx with rfl | hx
          · have hmn : m < n := lt_trans hmc hlt
            exact lt_of_lt_of_le (hfirst m (Or.inl rfl) hmn) hmc'
          · exact hfirst x (Or.inr hx) hlt

theorem nb_clust_loop_shape (fitO : Nat → List Pt → GMM) (coords : List Pt)
    (min_nc max_nc : Nat) (h : min_nc < min max_nc coords.length) :
    ∃ n : Nat,
      nb_clust_with_bic_ fitO coords min_nc max_nc
        = ((n : Int), some (bicAt fitO coords n), some (fitO n coords))
      ∧ min_nc ≤ n ∧ n < min max_nc coords.length
      ∧ (∀ k, min_nc ≤ k → k < min max_nc coords.length →
          bicAt fitO coords n ≤ bicAt fitO coords k)
      ∧ (∀ k, min_nc ≤ k → k < n → bicAt fitO coords n < bicAt fitO coords k) := by
  set max_ncf := min max_nc coords.length with hmx
  obtain ⟨d, hd⟩ : ∃ d, max_ncf - min_nc = d + 1 := ⟨max_ncf - min_nc - 1, by omega⟩
  have hsum : min_nc + 1 + d = max_ncf := by omega
  have hunf : nb_clust_with_bic_ fitO coords min_nc max_nc
      = bicLoop fitO coords (rangeFrom (min_nc + 1) d)
        ((min_nc : Int), some (bicAt fitO coords min_nc), some (fitO min_nc coords)) := by
    show bicLoop fitO coords (rangeFrom min_nc (max_ncf - min_nc)) (-1, none, none) = _
    rw [hd]
    show bicLoop fitO coords (rangeFrom (min_nc + 1) d)
      (bicStep fitO coords (-1, none, none) min_nc) = _
    rfl
  have hgt : ∀ x ∈ rangeFrom (min_nc + 1) d, min_nc < x := by
    intro x hx
    have := (mem_rangeFrom d (min_nc + 1) x).mp hx
    omega
  obtain ⟨n, heq, hmem, hle, hall, hfirst⟩ :=
    bicLoop_first_min fitO coords (rangeFrom (min_nc + 1) d) min_nc hgt
      (pairwise_rangeFrom d (min_nc + 1))
  have hnb : min_nc ≤ n ∧ n < max_ncf := by
    rcases hmem with rfl | hmem
    · omega
    · have := (mem_rangeFrom d (min_nc + 1) n).mp hmem
      omega
  refine ⟨n, hunf ▸ heq, hnb.1, hnb.2, ?_, ?_⟩
  · intro k hk1 hk2
    by_cases hk : k = min_nc
    · subst hk; exact hle
    · exact hall k ((mem_rangeFrom d (min_nc + 1) k).mpr (by omega))
  · intro k hk1 hk2
    by_cases hk : k = min_nc
    · subst hk; exact hfirst _ (Or.inl rfl) hk2
    · have hkmem : k ∈ rangeFrom (min_nc + 1) d :=
        (mem_rangeFrom d (min_nc + 1) k).mpr (by omega)
      exact hfirst k (Or.inr hkmem) hk2

/-- C2 counterexample: on an empty coordinate set with `min_nc = 2`,
`max_nc = 20` the candidate range `[2, min(20, 0))` is empty and
`nb_clust_with_bic_` returns the sentinel count `-1`, which does not lie in
the claimed half-open interval — the claim's unconditional range guarantee
fails. -/
theorem C2_cx_sentinel_outside_range :
    ¬ ((2 : Int) ≤ (nb_clust_with_bic_ trivFit [] 2 20).1
      ∧ (nb_clust_with_bic_ trivFit [] 2 20).1
          < ((min 20 (List.length ([] : List Pt)) : Nat) : Int)) := by
  decide

/-- C2 (amended): whenever the candidate range
`[min_nc, min(max_nc, len(coord_tc)))` is nonempty, the component count
returned by `nb_clust_with_bic_` lies in it; when the range is empty the
sentinel `-1` is returned instead. -/
theorem C2_component_count_in_range (fitO : Nat → List Pt → GMM)
    (coords : List Pt) (min_nc max_nc : Nat)
    (h : min_nc < min max_nc coords.length) :
    (min_nc : Int) ≤ (nb_clust_with_bic_ fitO coords min_nc max_nc).1
    ∧ (nb_clust_with_bic_ fitO coords min_nc max_nc).1
        < ((min max_nc coords.length : Nat) : Int) := by
  obtain ⟨n, heq, hn1, hn2, -, -⟩ := nb_clust_loop_shape fitO coords min_nc max_nc h
  rw [heq]
  refine ⟨?_, ?_⟩
  · show (min_nc : Int) ≤ (n : Int)
    exact_mod_cast hn1
  · show (n : Int) < ((min max_nc coords.length : Nat) : Int)
    exact_mod_cast hn2

/-- C2 witness: four points, bounds (2, 20), a fit oracle whose BIC minimum is
at 3 components; the returned count lies in `[2, min(20, 4)) = [2, 4)`. -/
theorem C2_component_count_in_range_w :
    2 < min 20 (List.length coords4)
    ∧ ((2 : Int) ≤ (nb_clust_with_bic_ quadFit coords4 2 20).1
      ∧ (nb_clust_with_bic_ quadFit coords4 2 20).1
          < ((min 20 (List.length coords4) : Nat) : Int)) :=
  ⟨by decide, C2_component_count_in_range quadFit coords4 2 20 (by decide)⟩

/-- C3 counterexample: with a single point and `min_nc = 2` (fewer points than
`min_nc`), `nb_clust_with_bic_` does NOT fail: it returns normally with the
sentinel triple `(-1, np.inf, [])` (here `(-1, none, none)`), the very
"default/sentinel result" the claim says is not returned. -/
theorem C3_cx_returns_sentinel :
    nb_clust_with_bic_ trivFit [(0, 0)] 2 20 = (-1, none, none) := rfl

/-- C3 (amended): if the coordinate set has fewer points than `min_nc`, the
candidate range is empty and `nb_clust_with_bic_` returns the sentinel triple
`(-1, np.inf-as-none, no-model)` rather than raising; the failure only
surfaces later, when a caller invokes `.score` on the `[]` placeholder
model. -/
theorem C3_sentinel_on_small_input (fitO : Nat → List Pt → GMM)
    (coords : List Pt) (min_nc max_nc : Nat) (h : coords.length < min_nc) :
    nb_clust_with_bic_ fitO coords min_nc max_nc = (-1, none, none) := by
  have hmin : min max_nc coords.length ≤ coords.length := Nat.min_le_right _ _
  have h0 : min max_nc coords.length - min_nc = 0 := by omega
  show bicLoop fitO coords
    (rangeFrom min_nc (min max_nc coords.length - min_nc)) (-1, none, none) = _
  rw [h0]
  rfl

/-- C3 witness: two points with `min_nc = 3`: the sentinel triple comes back. -/
theorem C3_sentinel_on_small_input_w :
    List.length [((0 : Rat), (0 : Rat)), (1, 1)] < 3
    ∧ nb_clust_with_bic_ trivFit [(0, 0), (1, 1)] 3 20 = (-1, none, none) :=
  ⟨by decide, C3_sentinel_on_small_input trivFit [(0, 0), (1, 1)] 3 20 (by decide)⟩

/-- C7: over a nonempty candidate range, `nb_clust_with_bic_` returns the
model, BIC and count of a candidate whose BIC is minimal among all candidates,
and among candidates achieving that minimum it returns the first-encountered
(lowest) count — Python's stable `min` over the ascending iteration. -/
theorem C7_first_minimum (fitO : Nat → List Pt → GMM) (coords : List Pt)
    (min_nc max_nc : Nat) (h : min_nc < min max_nc coords.length) :
    ∃ n : Nat,
      nb_clust_with_bic_ fitO coords min_nc max_nc
        = ((n : Int), some (bicAt fitO coords n), some (fitO n coords))
      ∧ min_nc ≤ n ∧ n < min max_nc coords.length
      ∧ (∀ k, min_nc ≤ k → k < min max_nc coords.length →
          bicAt fitO coords n ≤ bicAt fitO coords k)
      ∧ (∀ k, min_nc ≤ k → k < min max_nc coords.length →
          bicAt fitO coords k = bicAt fitO coords n → n ≤ k) := by
  obtain ⟨n, heq, hn1, hn2, hall, hfirst⟩ :=
    nb_clust_loop_shape fitO coords min_nc max_nc h
  refine ⟨n, heq, hn1, hn2, hall, ?_⟩
  intro k hk1 hk2 hkeq
  by_contra hlt
  have hkn : k < n := by omega
  exact absurd hkeq (ne_of_gt (hfirst k hk1 hkn))

/-- C7 witness: four points, candidates {2, 3}, BIC uniquely minimal at 3. -/
theorem C7_first_minimum_w :
    2 < min 20 (List.length coords4)
    ∧ ∃ n : Nat,
      nb_clust_with_bic_ quadFit coords4 2 20
        = ((n : Int), some (bicAt quadFit coords4 n), some (quadFit n coords4))
      ∧ 2 ≤ n ∧ n < min 20 (List.length coords4)
      ∧ (∀ k, 2 ≤ k → k < min 20 (List.length coords4) →
          bicAt quadFit coords4 n ≤ bicAt quadFit coords4 k)
      ∧ (∀ k, 2 ≤ k → k < min 20 (List.length coords4) →
          bicAt quadFit coords4 k = bicAt quadFit coords4 n → n ≤ k) :=
  ⟨by decide, C7_first_minimum quadFit coords4 2 20 (by decide)⟩

theorem length_filter_add_not (p : α → Bool) :
    ∀ l : List α, (l.filter p).length + (l.filter (fun a => !(p a))).length = l.length := by
  intro l
  induction l with
  | nil => rfl
  | cons a t ih =>
    cases h : p a with
    | true => simp [h]; omega
    | false => simp [h]; omega

/-- C5: `train_test_split` sends a row to the test side exactly when its
`id_traj` is held out and to the train side otherwise; consequently the train
and test parts exhaust `data_original` (their sizes sum to its size) and are
disjoint by row index (given a duplicate-free index, as a pandas frame has). -/
theorem C5_partition (data : List Row) (cvi : List Nat) (i : Nat)
    (hnodup : (data.map Row.idx).Nodup) :
    (train_test_split data cvi i).1.length + (train_test_split data cvi i).2.1.length
      = data.length
    ∧ (train_test_split data cvi i).1
        = (data.filter (fun r => !(decide (r.id_traj ∈ cvi)))).map
            (fun r => (r.lons, r.lats, r.id_traj))
    ∧ (train_test_split data cvi i).2.1
        = (data.filter (fun r => decide (r.id_traj ∈ cvi))).map (fun r => (r.lons, r.lats))
    ∧ ∀ j, j ∈ (data.filter (fun r => !(decide (r.id_traj ∈ cvi)))).map Row.idx →
        j ∉ ((train_test_split data cvi i).2.2).map STFRow.idx := by
  refine ⟨?_, rfl, rfl, ?_⟩
  · show ((data.filter (fun r => !(decide (r.id_traj ∈ cvi)))).map
        (fun r => (r.lons, r.lats, r.id_traj))).length
      + ((data.filter (fun r => decide (r.id_traj ∈ cvi))).map
        (fun r => (r.lons, r.lats))).length = data.length
    rw [List.length_map, List.length_map, Nat.add_comm]
    exact length_filter_add_not (fun r => decide (r.id_traj ∈ cvi)) data
  · intro j hj1 hj2
    have hframe : ((train_test_split data cvi i).2.2).map STFRow.idx
        = (data.filter (fun r => decide (r.id_traj ∈ cvi))).map Row.idx := by
      show ((data.filter (fun r => decide (r.id_traj ∈ cvi))).map
        (fun r => ({ idx := r.idx, cv := i, scores := [] } : STFRow))).map STFRow.idx = _
      rw [List.map_map]
      rfl
    rw [hframe] at hj2
    obtain ⟨r1, hr1, hr1j⟩ := List.mem_map.mp hj1
    obtain ⟨r2, hr2, hr2j⟩ := List.mem_map.mp hj2
    have hr1d := List.mem_filter.mp hr1
    have hr2d := List.mem_filter.mp hr2
    have heq : r1 = r2 := by
      have hinj := List.inj_on_of_nodup_map hnodup
      exact hinj hr1d.1 hr2d.1 (hr1j.trans hr2j.symm)
    rw [heq] at hr1d
    have h1 := hr1d.2
    have h2 := hr2d.2
    rw [h2] at h1
    cases h1

/-- C5 witness: two trajectories split on held-out id 0 — sizes sum to 6, the
train/test characterizations hold, and train row index 3 is not a test row
index. -/
theorem C5_partition_w :
    (dataW.map Row.idx).Nodup
    ∧ (train_test_split dataW [0] 0).1.length
        + (train_test_split dataW [0] 0).2.1.length = dataW.length
    ∧ (3 : Nat) ∉ ((train_test_split dataW [0] 0).2.2).map STFRow.idx :=
  ⟨by decide, (C5_partition dataW [0] 0 (by decide)).1,
    (C5_partition dataW [0] 0 (by decide)).2.2.2 3 (by decide)⟩

/-- C6: the test frame returned by `train_test_split` is indexed by exactly the
test points' original row indices, in their original order, and its `cv`
column is constantly the fold number `i`. -/
theorem C6_test_frame (data : List Row) (cvi : List Nat) (i : Nat) :
    ((train_test_split data cvi i).2.2).map STFRow.idx
      = (data.filter (fun r => decide (r.id_traj ∈ cvi))).map Row.idx
    ∧ ((train_test_split data cvi i).2.2).map STFRow.cv
      = List.replicate (data.filter (fun r => decide (r.id_traj ∈ cvi))).length i := by
  constructor
  · show ((data.filter (fun r => decide (r.id_traj ∈ cvi))).map
      (fun r => ({ idx := r.idx, cv := i, scores := [] } : STFRow))).map STFRow.idx = _
    rw [List.map_map]
    rfl
  · show ((data.filter (fun r => decide (r.id_traj ∈ cvi))).map
      (fun r => ({ idx := r.idx, cv := i, scores := [] } : STFRow))).map STFRow.cv = _
    rw [List.map_map]
    exact List.map_const' _ i

/-- C6 witness: the fixture frame for held-out id 0 and fold number 5. -/
theorem C6_test_frame_w :
    ((train_test_split dataW [0] 5).2.2).map STFRow.idx
      = (dataW.filter (fun r => decide (r.id_traj ∈ ([0] : List Nat)))).map Row.idx
    ∧ ((train_test_split dataW [0] 5).2.2).map STFRow.cv
      = List.replicate (dataW.filter
          (fun r => decide (r.id_traj ∈ ([0] : List Nat)))).length 5 :=
  C6_test_frame dataW [0] 5

theorem cumsumLoop_map_idx :
    ∀ (data : List SRow) (st : List (Nat × List Rat) × List SRow),
      ((cumsumLoop data st).2).map SRow.idx = st.2.map SRow.idx ++ data.map SRow.idx := by
  intro data
  induction data with
  | nil => intro st; simp [cumsumLoop]
  | cons r rest ih =>
    intro st
    show ((cumsumLoop rest (cumsumStep st r)).2).map SRow.idx = _
    rw [ih]
    simp [cumsumStep]

theorem cumsumLoop_map_id :
    ∀ (data : List SRow) (st : List (Nat × List Rat) × List SRow),
      ((cumsumLoop data st).2).map SRow.id_traj
        = st.2.map SRow.id_traj ++ data.map SRow.id_traj := by
  intro data
  induction data with
  | nil => intro st; simp [cumsumLoop]
  | cons r rest ih =>
    intro st
    show ((cumsumLoop rest (cumsumStep st r)).2).map SRow.id_traj = _
    rw [ih]
    simp [cumsumStep]

theorem cumsumLoop_group (k : Nat) :
    ∀ (data : List SRow) (st : List (Nat × List Rat) × List SRow),
      (((cumsumLoop data st).2).filter (fun r => r.id_traj == k)).map SRow.scores
        = ((st.2.filter (fun r => r.id_traj == k)).map SRow.scores)
          ++ groupCumsum ((st.1.find? (fun q => q.1 == k)).map (fun q => q.2))
              ((data.filter (fun r => r.id_traj == k)).map SRow.scores) := by
  intro data
  induction data with
  | nil => intro st; simp [cumsumLoop, groupCumsum]
  | cons r rest ih =>
    intro st
    show (((cumsumLoop rest (cumsumStep st r)).2).filter (fun r => r.id_traj == k)).map
        SRow.scores = _
    rw [ih]
    by_cases hk : r.id_traj = k
    · simp only [cumsumStep, hk, List.filter_append, List.map_append, List.filter_cons,
        List.find?_cons, beq_self_eq_true, if_true, cond_true, Option.map_some',
        List.map_cons, List.map_nil, List.append_assoc, List.filter_nil]
      rw [groupCumsum]
      rfl
    · have hkb : (r.id_traj == k) = false := beq_eq_false_iff_ne.mpr hk
      simp only [cumsumStep, List.filter_append, List.map_append, List.filter_cons,
        List.find?_cons, hkb, Bool.false_eq_true, if_false, cond_false, List.map_cons,
        List.map_nil, List.append_assoc, List.filter_nil, List.append_nil, List.nil_append]

theorem vadd_replicate_zero : ∀ s : List Rat, vadd (List.replicate s.length 0) s = s := by
  intro s
  induction s with
  | nil => rfl
  | cons x xs ih =>
    show (0 + x) :: vadd (List.replicate xs.length 0) xs = x :: xs
    rw [zero_add, ih]

theorem groupCumsum_getLast :
    ∀ (l : List (List Rat)) (a : List Rat), l ≠ [] →
      (groupCumsum (some a) l).getLast? = some (l.foldl vadd a) := by
  intro l
  induction l with
  | nil => intro a h; exact absurd rfl h
  | cons s rest ih =>
    intro a _
    cases rest with
    | nil => rfl
    | cons t ts =>
      show (vadd a s :: groupCumsum (some (vadd a s)) (t :: ts)).getLast? = _
      have h2 : groupCumsum (some (vadd a s)) (t :: ts)
          = vadd (vadd a s) t :: groupCumsum (some (vadd (vadd a s) t)) ts := rfl
      rw [h2, List.getLast?_cons_cons, ← h2, ih (vadd a s) (by simp)]
      rfl

/-- C8: `create_cumsum_data` keeps every row at its original index and
`id_traj`, and within each trajectory group (in the input row order) replaces
the score vectors by their running sums — `[s1, s2, s3]` becomes
`[s1, s1+s2, s1+s2+s3]` — and the last (terminal) cumulative value of a
trajectory equals the full sum of that trajectory's scores. -/
theorem C8_cumsum (data : List SRow) (k : Nat) :
    (create_cumsum_data data).map SRow.idx = data.map SRow.idx
    ∧ (create_cumsum_data data).map SRow.id_traj = data.map SRow.id_traj
    ∧ ((create_cumsum_data data).filter (fun r => r.id_traj == k)).map SRow.scores
        = groupCumsum none ((data.filter (fun r => r.id_traj == k)).map SRow.scores)
    ∧ (((create_cumsum_data data).filter (fun r => r.id_traj == k)).map
        SRow.scores).getLast?
        = groupTotal ((data.filter (fun r => r.id_traj == k)).map SRow.scores) := by
  have h1 : (create_cumsum_data data).map SRow.idx = data.map SRow.idx := by
    have := cumsumLoop_map_idx data ([], [])
    simpa [create_cumsum_data] using this
  have h2 : (create_cumsum_data data).map SRow.id_traj = data.map SRow.id_traj := by
    have := cumsumLoop_map_id data ([], [])
    simpa [create_cumsum_data] using this
  have h3 : ((create_cumsum_data data).filter (fun r => r.id_traj == k)).map SRow.scores
      = groupCumsum none ((data.filter (fun r => r.id_traj == k)).map SRow.scores) := by
    have := cumsumLoop_group k data ([], [])
    simpa [create_cumsum_data] using this
  refine ⟨h1, h2, h3, ?_⟩
  rw [h3]
  cases hg : (data.filter (fun r => r.id_traj == k)).map SRow.scores with
  | nil => rfl
  | cons s rest =>
    have hcons : groupCumsum none (s :: rest) = s :: groupCumsum (some s) rest := by
      show vadd (List.replicate s.length 0) s
          :: groupCumsum (some (vadd (List.replicate s.length 0) s)) rest
        = s :: groupCumsum (some s) rest
      rw [vadd_replicate_zero]
    rw [hcons]
    cases rest with
    | nil => rfl
    | cons t ts =>
      have h4 : groupCumsum (some s) (t :: ts)
          = vadd s t :: groupCumsum (some (vadd s t)) ts := rfl
      rw [h4, List.getLast?_cons_cons, ← h4,
        groupCumsum_getLast (t :: ts) s (by simp)]
      rfl

/-- C8 witness: concrete three-point trajectory with scores `[1], [2], [4]`;
the cumulative column and the terminal total are as the claim states. -/
theorem C8_cumsum_w :
    (create_cumsum_data dataS8).map SRow.idx = dataS8.map SRow.idx
    ∧ (create_cumsum_data dataS8).map SRow.id_traj = dataS8.map SRow.id_traj
    ∧ ((create_cumsum_data dataS8).filter (fun r => r.id_traj == 7)).map SRow.scores
        = groupCumsum none ((dataS8.filter (fun r => r.id_traj == 7)).map SRow.scores)
    ∧ (((create_cumsum_data dataS8).filter (fun r => r.id_traj == 7)).map
        SRow.scores).getLast?
        = groupTotal ((dataS8.filter (fun r => r.id_traj == 7)).map SRow.scores) :=
  C8_cumsum dataS8 7

/-- Concrete unfolding of the same fixture: scores `[1], [2], [4]` become the
running sums `[1], [3], [7]` and the terminal row carries the trajectory
total 7. -/
theorem create_cumsum_data_shape :
    create_cumsum_data dataS8
      = [⟨0, 7, [1]⟩, ⟨1, 7, [3]⟩, ⟨2, 7, [7]⟩] := by
  norm_num [create_cumsum_data, cumsumLoop, cumsumStep, vadd, dataS8, List.find?]

theorem tts_frame_idx (data : List Row) (cvi : List Nat) (i : Nat) :
    ((train_test_split data cvi i).2.2).map STFRow.idx
      = (data.filter (fun r => decide (r.id_traj ∈ cvi))).map Row.idx := by
  show ((data.filter (fun r => decide (r.id_traj ∈ cvi))).map
    (fun r => ({ idx := r.idx, cv := i, scores := [] } : STFRow))).map STFRow.idx = _
  rw [List.map_map]
  rfl

theorem classLoop_map_idx (fitO : Nat → List Pt → GMM) (subO : List Pt → List Pt)
    (labels : List Nat) (tct : List (Rat × Rat × Nat)) (tcs : List Pt) :
    ∀ (l : List Nat) (acc : List (Nat × GMM) × List STFRow)
      (res : List (Nat × GMM) × List STFRow),
      classLoop fitO subO labels tct tcs l acc = some res →
      res.2.map STFRow.idx = acc.2.map STFRow.idx := by
  intro l
  induction l with
  | nil =>
    intro acc res h
    injection h with h
    rw [← h]
  | cons c rest ih =>
    intro acc res h
    cases hs : classStep fitO subO labels tct tcs acc c with
    | none => simp only [classLoop, hs] at h; cases h
    | some acc2 =>
      simp only [classLoop, hs] at h
      rw [ih acc2 res h]
      simp only [classStep] at hs
      split at hs
      · cases hs
      · injection hs with hs
        rw [← hs]
        simp [List.map_map]

theorem runFold_frame_idx (fitO : Nat → List Pt → GMM) (subO : List Pt → List Pt)
    (data : List Row) (labels : List Nat) (nb : Nat) (s : List Nat) (i : Nat)
    (f : List (Nat × GMM) × List STFRow)
    (h : runFold fitO subO data labels nb s i = some f) :
    f.2.map STFRow.idx = (data.filter (fun r => decide (r.id_traj ∈ s))).map Row.idx := by
  have h2 := classLoop_map_idx fitO subO labels (train_test_split data s i).1
    (train_test_split data s i).2.1 (rangeFrom 0 nb)
    ([], (train_test_split data s i).2.2) f h
  rw [h2]
  exact tts_frame_idx data s i

theorem foldsLoop_frames (fitO : Nat → List Pt → GMM) (subO : List Pt → List Pt)
    (data : List Row) (labels : List Nat) (nb : Nat) :
    ∀ (pairs : List (Nat × List Nat)) (folds : List (List (Nat × GMM) × List STFRow)),
      foldsLoop fitO subO data labels nb pairs = some folds →
      folds.map (fun f => f.2.map STFRow.idx)
        = pairs.map (fun p =>
            (data.filter (fun r => decide (r.id_traj ∈ p.2))).map Row.idx) := by
  intro pairs
  induction pairs with
  | nil =>
    intro folds h
    injection h with h
    rw [← h]
    rfl
  | cons p rest ih =>
    intro folds h
    rcases p with ⟨i, s⟩
    cases h1 : runFold fitO subO data labels nb s i with
    | none => simp only [foldsLoop, h1] at h; cases h
    | some f =>
      simp only [foldsLoop, h1] at h
      cases h2 : foldsLoop fitO subO data labels nb rest with
      | none => simp only [h2] at h; cases h
      | some fs =>
        simp only [h2] at h
        injection h with h
        rw [← h]
        simp only [List.map_cons]
        rw [runFold_frame_idx fitO subO data labels nb s i f h1, ih fs h2]

theorem map_catLists (f : α → β) :
    ∀ L : List (List α), (catLists L).map f = catLists (L.map (List.map f)) := by
  intro L
  induction L with
  | nil => rfl
  | cons l rest ih => simp [catLists, ih]

theorem countOcc_append (j : Nat) :
    ∀ a b : List Nat, countOcc j (a ++ b) = countOcc j a + countOcc j b := by
  intro a b
  induction a with
  | nil => simp [countOcc]
  | cons x t ih => simp [countOcc, ih]; omega

theorem countOcc_catLists (j : Nat) :
    ∀ L : List (List Nat), countOcc j (catLists L) = (L.map (countOcc j)).sum := by
  intro L
  induction L with
  | nil => rfl
  | cons l rest ih => simp [catLists, countOcc_append, ih]

theorem countOcc_eq_zero_of_not_mem (j : Nat) :
    ∀ l : List Nat, j ∉ l → countOcc j l = 0 := by
  intro l
  induction l with
  | nil => intro _; rfl
  | cons a t ih =>
    intro h
    have ha : a ≠ j := fun e => h (e ▸ List.mem_cons_self a t)
    have ht : j ∉ t := fun e => h (List.mem_cons_of_mem a e)
    simp [countOcc, ha, ih ht]

theorem mem_of_countOcc_ne_zero (j : Nat) :
    ∀ l : List Nat, countOcc j l ≠ 0 → j ∈ l := by
  intro l
  induction l with
  | nil => intro h; exact absurd rfl h
  | cons a t ih =>
    intro h
    by_cases ha : a = j
    · exact ha ▸ List.mem_cons_self a t
    · simp only [countOcc, if_neg ha, Nat.zero_add] at h
      exact List.mem_cons_of_mem a (ih h)

theorem countOcc_filter_nodup (p : Row → Bool) (r : Row) :
    ∀ data : List Row, (data.map Row.idx).Nodup → r ∈ data →
      countOcc r.idx ((data.filter p).map Row.idx) = if p r then 1 else 0 := by
  intro data
  induction data with
  | nil => intro _ hr; cases hr
  | cons a rest ih =>
    intro hnodup hr
    have hnd := List.nodup_cons.mp hnodup
    rcases List.mem_cons.mp hr with rfl | hr2
    · cases hp : p r with
      | true =>
        have hz : countOcc r.idx ((rest.filter p).map Row.idx) = 0 := by
          apply countOcc_eq_zero_of_not_mem
          intro hmem
          obtain ⟨x, hx1, hx2⟩ := List.mem_map.mp hmem
          exact hnd.1 (List.mem_map.mpr ⟨x, (List.mem_filter.mp hx1).1, hx2⟩)
        simp [List.filter_cons, hp, countOcc, hz]
      | false =>
        have hz : countOcc r.idx ((rest.filter p).map Row.idx) = 0 := by
          apply countOcc_eq_zero_of_not_mem
          intro hmem
          obtain ⟨x, hx1, hx2⟩ := List.mem_map.mp hmem
          exact hnd.1 (List.mem_map.mpr ⟨x, (List.mem_filter.mp hx1).1, hx2⟩)
        simp [List.filter_cons, hp, hz]
    · have hne : a.idx ≠ r.idx := by
        intro he
        exact hnd.1 (he ▸ List.mem_map.mpr ⟨r, hr2, rfl⟩)
      cases hp : p a with
      | true => simp [List.filter_cons, hp, countOcc, hne, ih hnd.2 hr2]
      | false => simp [List.filter_cons, hp, ih hnd.2 hr2]

theorem sum_indicator_disjoint (t : Nat) :
    ∀ cvl : List (List Nat),
      cvl.Pairwise (fun s u => ∀ x ∈ s, x ∉ u) →
      (∃ s ∈ cvl, t ∈ s) →
      (cvl.map (fun s => if t ∈ s then 1 else 0)).sum = 1 := by
  intro cvl
  induction cvl with
  | nil => intro _ h; obtain ⟨s, hs, -⟩ := h; cases hs
  | cons s rest ih =>
    intro hp hex
    have hd := List.pairwise_cons.mp hp
    by_cases ht : t ∈ s
    · have hz : (rest.map (fun u => if t ∈ u then 1 else 0)).sum = 0 := by
        apply List.sum_eq_zero
        intro x hx
        obtain ⟨u, hu, hux⟩ := List.mem_map.mp hx
        rw [← hux, if_neg (hd.1 u hu t ht)]
      simp [ht, hz]
    · have hex2 : ∃ u ∈ rest, t ∈ u := by
        obtain ⟨u, hu, htu⟩ := hex
        rcases List.mem_cons.mp hu with rfl | hu2
        · exact absurd htu ht
        · exact ⟨u, hu2, htu⟩
      simp [ht, ih hd.2 hex2]

theorem map_snd_enumerateFrom (g : List Nat → Nat) :
    ∀ (l : List (List Nat)) (k : Nat),
      ((enumerateFrom k l).map (fun p => g p.2)) = l.map g := by
  intro l
  induction l with
  | nil => intro k; rfl
  | cons a rest ih => intro k; simp [enumerateFrom, ih (k + 1)]

theorem map_congr_mem (f g : α → β) :
    ∀ l : List α, (∀ a ∈ l, f a = g a) → l.map f = l.map g := by
  intro l
  induction l with
  | nil => intro _; rfl
  | cons a t ih =>
    intro h
    simp only [List.map_cons]
    rw [h a (List.mem_cons_self a t), ih (fun b hb => h b (List.mem_cons_of_mem a hb))]

/-- C1: assuming the held-out trajectory-id sets are mutually disjoint and
together cover every `id_traj` of `data_original` (and the row index is
duplicate-free, as a pandas index must be here), a completed
`build_cross_clust_mixt_cv` run scores every original row as test data in
exactly one fold — each row index occurs exactly once in the concatenated fold
frames, so each `score_c` cell of the returned table is filled exactly once —
and the returned table is aligned to `data_original`'s original row order. -/
theorem C1_score_table (fitO : Nat → List Pt → GMM) (subO : List Pt → List Pt)
    (data : List Row) (cv_list : List (List Nat)) (nb : Nat) (labels : List Nat)
    (hnodup : (data.map Row.idx).Nodup)
    (hdisj : cv_list.Pairwise (fun s u => ∀ x ∈ s, x ∉ u))
    (hcover : ∀ r ∈ data, ∃ s ∈ cv_list, r.id_traj ∈ s)
    (hsome : (runFolds fitO subO data cv_list nb labels).isSome = true) :
    (∀ r ∈ data, countOcc r.idx
        ((concatFrames fitO subO data cv_list nb labels).map STFRow.idx) = 1)
    ∧ (build_cross_clust_mixt_cv fitO subO data cv_list nb labels).isSome = true
    ∧ (scoreTable fitO subO data cv_list nb labels).map JRow.row = data
    ∧ ∀ x ∈ scoreTable fitO subO data cv_list nb labels, x.ext.isSome = true := by
  obtain ⟨folds, hfolds⟩ := Option.isSome_iff_exists.mp hsome
  have hcf : concatFrames fitO subO data cv_list nb labels
      = catLists (folds.map (fun f => f.2)) := by
    simp [concatFrames, hfolds]
  have hff : folds.map (fun f => f.2.map STFRow.idx)
      = (enumerateFrom 0 cv_list).map (fun p =>
          (data.filter (fun r => decide (r.id_traj ∈ p.2))).map Row.idx) :=
    foldsLoop_frames fitO subO data labels nb (enumerateFrom 0 cv_list) folds hfolds
  have hcount : ∀ r ∈ data, countOcc r.idx
      ((concatFrames fitO subO data cv_list nb labels).map STFRow.idx) = 1 := by
    intro r hr
    rw [hcf, map_catLists, List.map_map]
    have hcomp : (List.map STFRow.idx ∘ fun f : List (Nat × GMM) × List STFRow => f.2)
        = fun f => f.2.map STFRow.idx := rfl
    rw [hcomp, hff, countOcc_catLists, List.map_map]
    have hcomp2 : (countOcc r.idx ∘ fun p : Nat × List Nat =>
        (data.filter (fun r2 => decide (r2.id_traj ∈ p.2))).map Row.idx)
        = fun p : Nat × List Nat => (fun s => countOcc r.idx
            ((data.filter (fun r2 => decide (r2.id_traj ∈ s))).map Row.idx)) p.2 := rfl
    rw [hcomp2, map_snd_enumerateFrom (fun s => countOcc r.idx
      ((data.filter (fun r2 => decide (r2.id_traj ∈ s))).map Row.idx)) cv_list 0]
    have hcong : cv_list.map (fun s => countOcc r.idx
        ((data.filter (fun r2 => decide (r2.id_traj ∈ s))).map Row.idx))
        = cv_list.map (fun s => if r.id_traj ∈ s then 1 else 0) := by
      apply map_congr_mem
      intro s _
      rw [countOcc_filter_nodup (fun r2 => decide (r2.id_traj ∈ s)) r data hnodup hr]
      by_cases hmem : r.id_traj ∈ s
      · simp [hmem]
      · simp [hmem]
    rw [hcong]
    exact sum_indicator_disjoint r.id_traj cv_list hdisj (hcover r hr)
  refine ⟨hcount, ?_, ?_, ?_⟩
  · simp [build_cross_clust_mixt_cv, hfolds]
  · simp only [scoreTable, build_cross_clust_mixt_cv, hfolds, Option.map_some',
      Option.getD_some, List.map_map]
    have hcomp3 : (JRow.row ∘ fun r : Row =>
        ({ row := r,
           ext := ((catLists (folds.map (fun f => f.2))).find?
              (fun x => x.idx == r.idx)).map (fun x => (x.cv, x.scores)) } : JRow))
        = fun r : Row => r := rfl
    rw [hcomp3]
    exact List.map_id' data
  · intro x hx
    simp only [scoreTable, build_cross_clust_mixt_cv, hfolds, Option.map_some',
      Option.getD_some] at hx
    obtain ⟨r, hr, hxe⟩ := List.mem_map.mp hx
    rw [← hxe]
    show (((catLists (folds.map (fun f => f.2))).find?
        (fun q => q.idx == r.idx)).map (fun q => (q.cv, q.scores))).isSome = true
    have h1 := hcount r hr
    rw [hcf] at h1
    have h2 : r.idx ∈ (catLists (folds.map (fun f => f.2))).map STFRow.idx :=
      mem_of_countOcc_ne_zero _ _ (by omega)
    obtain ⟨q, hq, hqe⟩ := List.mem_map.mp h2
    cases hf : (catLists (folds.map (fun f => f.2))).find? (fun q => q.idx == r.idx) with
    | none =>
      have hno := List.find?_eq_none.mp hf q hq
      simp [hqe] at hno
    | some v => simp [hf]

/-- C1 witness: two trajectories, two folds holding out ids {0} and {1}
(disjoint, covering): the run completes, every row index is scored in exactly
one fold, and the joined table follows `dataW`'s row order with no missing
extension. -/
theorem C1_score_table_w :
    (runFolds trivFit trivSub dataW [[0], [1]] 1 [0, 0]).isSome = true
    ∧ ((∀ r ∈ dataW, countOcc r.idx
          ((concatFrames trivFit trivSub dataW [[0], [1]] 1 [0, 0]).map STFRow.idx) = 1)
      ∧ (build_cross_clust_mixt_cv trivFit trivSub dataW [[0], [1]] 1 [0, 0]).isSome = true
      ∧ (scoreTable trivFit trivSub dataW [[0], [1]] 1 [0, 0]).map JRow.row = dataW
      ∧ ∀ x ∈ scoreTable trivFit trivSub dataW [[0], [1]] 1 [0, 0],
          x.ext.isSome = true) :=
  ⟨rfl, C1_score_table trivFit trivSub dataW [[0], [1]] 1 [0, 0]
    (by decide) (by decide) (by decide) rfl⟩

/-- C4: the code writes `gmm.score(traj_coord_test)` — sklearn's single
aggregate average log-likelihood — into the fold frame's `score_c` column,
which pandas broadcasts to every test row.  On a fold whose two test points
(0,0) and (1,1) have distinct per-point log-likelihoods (0 and 1 under the
fitted model), both rows nevertheless receive the same value 1/2 (the mean):
the column is a broadcast aggregate, not the claimed per-point sequence. -/
theorem C4_aggregate_broadcast :
    (concatFrames projFit trivSub dataW4 [[0]] 1 [0, 0]).map STFRow.scores
      = [[(1 : Rat) / 2], [(1 : Rat) / 2]]
    ∧ (projFit 2 (classTrainCoords [0, 0] 0
          (train_test_split dataW4 [0] 0).1)).logpdf (0, 0)
      ≠ (projFit 2 (classTrainCoords [0, 0] 0
          (train_test_split dataW4 [0] 0).1)).logpdf (1, 1) := by
  constructor
  · norm_num [concatFrames, runFolds, foldsLoop, enumerateFrom, runFold, classLoop,
      classStep, classTrainCoords, id_traj_class_n, rangeFrom, nb_clust_with_bic_,
      bicLoop, bicStep, GMM.score, train_test_split, catLists, projFit, trivSub,
      dataW4, vadd, List.filter]
  · norm_num [projFit]

theorem mem_insertSorted (a x : Nat) :
    ∀ t : List Nat, x ∈ insertSorted a t ↔ x = a ∨ x ∈ t := by
  intro t
  induction t with
  | nil => simp [insertSorted]
  | cons b rest ih =>
    by_cases h1 : a < b
    · simp [insertSorted, h1]
    · by_cases h2 : a = b
      · subst h2
        have he : insertSorted a (a :: rest) = a :: rest := by
          simp [insertSorted, h1]
        rw [he]
        simp only [List.mem_cons]
        tauto
      · simp only [insertSorted, if_neg h1, if_neg h2, List.mem_cons, ih]
        tauto

theorem mem_sortedUnique (x : Nat) :
    ∀ l : List Nat, x ∈ sortedUnique l ↔ x ∈ l := by
  intro l
  induction l with
  | nil => simp [sortedUnique]
  | cons a rest ih =>
    show x ∈ insertSorted a (sortedUnique rest) ↔ _
    rw [mem_insertSorted, ih]
    simp

theorem create_cumsum_length (ds : List SRow) :
    (create_cumsum_data ds).length = ds.length := by
  have h := cumsumLoop_map_idx ds ([], [])
  have h2 := congrArg List.length h
  simpa [create_cumsum_data] using h2

theorem zip_replace_map_id :
    ∀ (c : List SRow) (o : List Row), c.length = o.length →
      (List.zipWith (fun (c : SRow) (o : Row) => { c with id_traj := o.id_traj }) c o).map
        SRow.id_traj = o.map Row.id_traj := by
  intro c
  induction c with
  | nil =>
    intro o h
    cases o with
    | nil => rfl
    | cons y ys => cases h
  | cons x xs ih =>
    intro o h
    cases o with
    | nil => cases h
    | cons y ys =>
      simp only [List.zipWith_cons_cons, List.map_cons]
      rw [ih ys (by simpa using h)]

theorem zip_replace_eq_self :
    ∀ (c : List SRow) (o : List Row),
      c.map SRow.id_traj = o.map Row.id_traj →
      List.zipWith (fun (c : SRow) (o : Row) => { c with id_traj := o.id_traj }) c o = c := by
  intro c
  induction c with
  | nil => intro o _; rfl
  | cons x xs ih =>
    intro o h
    cases o with
    | nil => cases h
    | cons y ys =>
      simp only [List.map_cons, List.cons.injEq] at h
      simp only [List.zipWith_cons_cons]
      rw [ih ys h.2]
      have hx : ({ x with id_traj := y.id_traj } : SRow) = x := by
        cases x
        simp_all
      rw [hx]

theorem lookupAll_some (labels : List Nat) :
    ∀ ids : List Nat, (∀ k ∈ ids, k < labels.length) →
      lookupAll labels ids = some (ids.map (fun k => labels.getD k 0)) := by
  intro ids
  induction ids with
  | nil => intro _; rfl
  | cons a t ih =>
    intro h
    have hlt : a < labels.length := h a (List.mem_cons_self a t)
    have ha : labels[a]? = some (labels.getD a 0) := by
      rw [List.getD_eq_getElem?_getD labels a 0, List.getElem?_eq_getElem hlt]
      rfl
    have ha2 : labels.get? a = some (labels.getD a 0) := by
      rw [List.get?_eq_getElem?]
      exact ha
    show (match labels.get? a with
        | none => none
        | some v =>
          match lookupAll labels t with
          | none => none
          | some vs => some (v :: vs)) = _
    simp only [ha2, ih (fun k hk => h k (List.mem_cons_of_mem a hk)), List.map_cons]

theorem lookupAll_none (labels : List Nat) :
    ∀ ids : List Nat, (∃ k ∈ ids, labels.length ≤ k) →
      lookupAll labels ids = none := by
  intro ids
  induction ids with
  | nil => intro h; obtain ⟨k, hk, -⟩ := h; cases hk
  | cons a t ih =>
    intro h
    by_cases ha : labels.length ≤ a
    · have hn : labels[a]? = none := List.getElem?_eq_none ha
      have hn2 : labels.get? a = none := by rw [List.get?_eq_getElem?]; exact hn
      show (match labels.get? a with
          | none => none
          | some v =>
            match lookupAll labels t with
            | none => none
            | some vs => some (v :: vs)) = none
      simp only [hn2]
    · obtain ⟨k, hk, hk2⟩ := h
      rcases List.mem_cons.mp hk with rfl | hk3
      · exact absurd hk2 ha
      · cases hg : labels[a]? with
        | none =>
          have hg2 : labels.get? a = none := by rw [List.get?_eq_getElem?]; exact hg
          show (match labels.get? a with
              | none => none
              | some v =>
                match lookupAll labels t with
                | none => none
                | some vs => some (v :: vs)) = none
          simp only [hg2]
        | some v =>
          have hg2 : labels.get? a = some v := by rw [List.get?_eq_getElem?]; exact hg
          show (match labels.get? a with
              | none => none
              | some v =>
                match lookupAll labels t with
                | none => none
                | some vs => some (v :: vs)) = none
          simp only [hg2, ih ⟨k, hk3, hk2⟩]

theorem vadd_getD :
    ∀ (s t : List Rat) (j : Nat), j < s.length → j < t.length →
      (vadd s t).getD j 0 = s.getD j 0 + t.getD j 0 := by
  intro s
  induction s with
  | nil => intro t j h _; cases h
  | cons x xs ih =>
    intro t j h1 h2
    cases t with
    | nil => cases h2
    | cons y ys =>
      cases j with
      | zero => rfl
      | succ j2 =>
        show (vadd xs ys).getD j2 0 = xs.getD j2 0 + ys.getD j2 0
        exact ih ys j2 (by simpa using h1) (by simpa using h2)

theorem vadd_length :
    ∀ (s t : List Rat), (vadd s t).length = min s.length t.length := by
  intro s t
  simp [vadd]

theorem foldl_vadd_getD (m j : Nat) (hj : j < m) :
    ∀ (rest : List (List Rat)) (s : List Rat), s.length = m →
      (∀ x ∈ rest, x.length = m) →
      (rest.foldl vadd s).getD j 0
        = ((s :: rest).map (fun v => v.getD j 0)).sum := by
  intro rest
  induction rest with
  | nil => intro s _ _; simp
  | cons t ts ih =>
    intro s hs hall
    have ht : t.length = m := hall t (List.mem_cons_self t ts)
    have hvl : (vadd s t).length = m := by rw [vadd_length, hs, ht]; omega
    show (ts.foldl vadd (vadd s t)).getD j 0 = _
    rw [ih (vadd s t) hvl (fun x hx => hall x (List.mem_cons_of_mem t hx))]
    simp only [List.map_cons, List.sum_cons]
    rw [vadd_getD s t j (by omega) (by omega)]
    ring

theorem map_getLast? (f : α → β) :
    ∀ l : List α, (l.map f).getLast? = l.getLast?.map f := by
  intro l
  induction l with
  | nil => rfl
  | cons a t ih =>
    cases t with
    | nil => rfl
    | cons b ts =>
      simp only [List.map_cons, List.getLast?_cons_cons]
      exact ih

theorem cumsum_group_scores (ds : List SRow) (k : Nat) :
    ((create_cumsum_data ds).filter (fun r => r.id_traj == k)).map SRow.scores
      = groupCumsum none ((ds.filter (fun r => r.id_traj == k)).map SRow.scores) := by
  have h := cumsumLoop_group k ds ([], [])
  simpa [create_cumsum_data] using h

theorem groupCumsum_terminal :
    ∀ g : List (List Rat), (groupCumsum none g).getLast? = groupTotal g := by
  intro g
  cases g with
  | nil => rfl
  | cons s rest =>
    have hcons : groupCumsum none (s :: rest) = s :: groupCumsum (some s) rest := by
      show vadd (List.replicate s.length 0) s
          :: groupCumsum (some (vadd (List.replicate s.length 0) s)) rest
        = s :: groupCumsum (some s) rest
      rw [vadd_replicate_zero]
    rw [hcons]
    cases rest with
    | nil => rfl
    | cons t ts =>
      have h4 : groupCumsum (some s) (t :: ts)
          = vadd s t :: groupCumsum (some (vadd s t)) ts := rfl
      rw [h4, List.getLast?_cons_cons, ← h4,
        groupCumsum_getLast (t :: ts) s (by simp)]
      rfl

/-- C10 counterexample: a trajectory id (5) outside `[0, len(labels))` does NOT
make `build_cross_clust_mixt_cv` fail — the run completes, because the class
filter is a positional `np.where`/`isin` test that silently excludes
out-of-range ids from every class's training set; only `create_roc_dict`'s
`labels[k]` lookup raises. -/
theorem C10_cx_build_accepts_out_of_range :
    (∃ r ∈ dataC10, List.length ([0] : List Nat) ≤ r.id_traj)
    ∧ (build_cross_clust_mixt_cv trivFit trivSub dataC10 [[5]] 1 [0]).isSome = true :=
  ⟨by decide, rfl⟩

/-- C10 (amended): the two functions treat out-of-range trajectory ids
differently.  `create_roc_dict` indexes `labels[k]` for every trajectory id
`k`, so any id outside `[0, len(labels))` raises (returns `none`), with no
defensive handling; `build_cross_clust_mixt_cv` performs no such lookup — its
class filter keeps only ids among the positions `0 .. len(labels)-1` where
`labels` equals the class, so an out-of-range id is silently dropped from
every class's training set instead of failing. -/
theorem C10_labels_lookup (rocO : List Bool → List Rat → Bool → List Rat × List Rat × List Rat)
    (aucO : List Rat → List Rat → Rat) (data_original : List Row)
    (data_score : List SRow) (labels : List Nat) (nb_tc : Nat)
    (hlen : data_score.length = data_original.length)
    (hbad : ∃ r ∈ data_original, labels.length ≤ r.id_traj) :
    create_roc_dict rocO aucO data_original data_score labels nb_tc = none
    ∧ ∀ c t : Nat, labels.length ≤ t → t ∉ id_traj_class_n labels c := by
  constructor
  · have hcl : (create_cumsum_data data_score).length = data_original.length := by
      rw [create_cumsum_length]; exact hlen
    have hids : (List.zipWith (fun (c : SRow) (o : Row) => { c with id_traj := o.id_traj })
        (create_cumsum_data data_score) data_original).map SRow.id_traj
        = data_original.map Row.id_traj := zip_replace_map_id _ _ hcl
    obtain ⟨r, hr, hler⟩ := hbad
    have hmem : r.id_traj ∈ sortedUnique ((List.zipWith (fun (c : SRow) (o : Row) =>
        { c with id_traj := o.id_traj }) (create_cumsum_data data_score)
        data_original).map SRow.id_traj) := by
      rw [mem_sortedUnique, hids]
      exact List.mem_map.mpr ⟨r, hr, rfl⟩
    simp only [create_roc_dict]
    rw [lookupAll_none labels _ ⟨r.id_traj, hmem, hler⟩]
  · intro c t hle hmem
    have h2 := (List.mem_filter.mp hmem).1
    have h3 := (mem_rangeFrom labels.length 0 t).mp h2
    omega

/-- C10 witness: one out-of-range trajectory id (5 with `labels = [0]`):
`create_roc_dict` fails with `none`, and no id at or beyond `len(labels)` ever
passes the class filter's positional membership test. -/
theorem C10_labels_lookup_w :
    List.length ([⟨0, 5, [1]⟩] : List SRow) = List.length ([⟨0, 0, 0, 5⟩] : List Row)
    ∧ create_roc_dict trivRoc trivAuc [⟨0, 0, 0, 5⟩] [⟨0, 5, [1]⟩] [0] 1 = none
    ∧ ∀ c t : Nat, List.length ([0] : List Nat) ≤ t → t ∉ id_traj_class_n [0] c :=
  ⟨rfl,
    (C10_labels_lookup trivRoc trivAuc [⟨0, 0, 0, 5⟩] [⟨0, 5, [1]⟩] [0] 1 rfl
      ⟨⟨0, 0, 0, 5⟩, by decide, by decide⟩).1,
    (C10_labels_lookup trivRoc trivAuc [⟨0, 0, 0, 5⟩] [⟨0, 5, [1]⟩] [0] 1 rfl
      ⟨⟨0, 0, 0, 5⟩, by decide, by decide⟩).2⟩

theorem create_cumsum_map_id (ds : List SRow) :
    (create_cumsum_data ds).map SRow.id_traj = ds.map SRow.id_traj := by
  have h := cumsumLoop_map_id ds ([], [])
  simpa [create_cumsum_data] using h

theorem terminal_score (ds : List SRow) (k tc nb_tc : Nat)
    (hw : ∀ r ∈ ds, r.scores.length = nb_tc) (htc : tc < nb_tc)
    (hk : k ∈ ds.map SRow.id_traj) :
    scoreCol tc (((create_cumsum_data ds).filter (fun r => r.id_traj == k)).getLast?)
      = ((ds.filter (fun r => r.id_traj == k)).map (fun r => r.scores.getD tc 0)).sum := by
  obtain ⟨r0, hr0, hr0k⟩ := List.mem_map.mp hk
  have hr0f : r0 ∈ ds.filter (fun r => r.id_traj == k) :=
    List.mem_filter.mpr ⟨hr0, by simp [hr0k]⟩
  cases hg : ds.filter (fun r => r.id_traj == k) with
  | nil => rw [hg] at hr0f; cases hr0f
  | cons f0 frest =>
    have hterm : (((create_cumsum_data ds).filter
        (fun r => r.id_traj == k)).getLast?).map SRow.scores
        = some ((frest.map SRow.scores).foldl vadd f0.scores) := by
      rw [← map_getLast? SRow.scores, cumsum_group_scores, groupCumsum_terminal, hg]
      rfl
    cases hlast : ((create_cumsum_data ds).filter (fun r => r.id_traj == k)).getLast? with
    | none => rw [hlast] at hterm; cases hterm
    | some lastRow =>
      rw [hlast] at hterm
      injection hterm with hterm
      show lastRow.scores.getD tc 0 = _
      rw [hterm]
      have hlen0 : f0.scores.length = nb_tc :=
        hw f0 (List.mem_filter.mp (hg ▸ List.mem_cons_self f0 frest)).1
      have hlenr : ∀ x ∈ frest.map SRow.scores, x.length = nb_tc := by
        intro x hx
        obtain ⟨rr, hrr, hrrx⟩ := List.mem_map.mp hx
        have : rr ∈ ds.filter (fun r => r.id_traj == k) :=
          hg ▸ List.mem_cons_of_mem f0 hrr
        rw [← hrrx]
        exact hw rr (List.mem_filter.mp this).1
      rw [foldl_vadd_getD nb_tc tc htc (frest.map SRow.scores) f0.scores hlen0 hlenr]
      simp only [List.map_cons, List.map_map, List.sum_cons]
      rfl

/-- C9: `create_roc_dict` returns the mapping whose keys are exactly
`0 .. nb_tc - 1`; for each label `tc` the entry is the `(fpr, tpr, auc)` triple
obtained by handing the ROC primitive the per-trajectory membership indicator
(`labels[k] == tc`, trajectories in ascending id order) as ground truth, the
per-trajectory terminal cumulative `score_tc` (which equals the full sum of the
trajectory's `score_tc` values) as scores, and the positive class fixed to the
true indicator value (`pos_label=1`), with the AUC computed from that curve. -/
theorem C9_roc_dict (rocO : List Bool → List Rat → Bool → List Rat × List Rat × List Rat)
    (aucO : List Rat → List Rat → Rat) (data_original : List Row)
    (data_score : List SRow) (labels : List Nat) (nb_tc : Nat)
    (hid : data_score.map SRow.id_traj = data_original.map Row.id_traj)
    (hw : ∀ r ∈ data_score, r.scores.length = nb_tc)
    (hrange : ∀ r ∈ data_original, r.id_traj < labels.length) :
    create_roc_dict rocO aucO data_original data_score labels nb_tc
      = some ((rangeFrom 0 nb_tc).map (fun tc =>
          let ids := sortedUnique (data_original.map Row.id_traj)
          let y := ids.map (fun k => labels.getD k 0 == tc)
          let s := ids.map (fun k =>
            ((data_score.filter (fun r => r.id_traj == k)).map
              (fun r => r.scores.getD tc 0)).sum)
          let t := rocO y s true
          (tc, (t.1, t.2.1, aucO t.1 t.2.1)))) := by
  have hcid : (create_cumsum_data data_score).map SRow.id_traj
      = data_original.map Row.id_traj := (create_cumsum_map_id data_score).trans hid
  have hzip : List.zipWith (fun (c : SRow) (o : Row) => { c with id_traj := o.id_traj })
      (create_cumsum_data data_score) data_original = create_cumsum_data data_score :=
    zip_replace_eq_self _ _ hcid
  have hlook : lookupAll labels (sortedUnique ((create_cumsum_data data_score).map
      SRow.id_traj)) = some ((sortedUnique ((create_cumsum_data data_score).map
        SRow.id_traj)).map (fun k => labels.getD k 0)) := by
    apply lookupAll_some
    intro k hkmem
    rw [mem_sortedUnique, hcid] at hkmem
    obtain ⟨r, hr, hrk⟩ := List.mem_map.mp hkmem
    exact hrk ▸ hrange r hr
  simp only [create_roc_dict, hzip, hlook]
  apply congrArg some
  apply map_congr_mem
  intro tc htcmem
  have htc : tc < nb_tc := by
    have := (mem_rangeFrom nb_tc 0 tc).mp htcmem
    omega
  have hy : ((sortedUnique ((create_cumsum_data data_score).map SRow.id_traj)).map
      (fun k => labels.getD k 0)).map (fun l => l == tc)
      = (sortedUnique (data_original.map Row.id_traj)).map
          (fun k => labels.getD k 0 == tc) := by
    rw [List.map_map, hcid]
    rfl
  have hs : (sortedUnique ((create_cumsum_data data_score).map SRow.id_traj)).map
      (fun k => scoreCol tc (((create_cumsum_data data_score).filter
        (fun r => r.id_traj == k)).getLast?))
      = (sortedUnique (data_original.map Row.id_traj)).map (fun k =>
          ((data_score.filter (fun r => r.id_traj == k)).map
            (fun r => r.scores.getD tc 0)).sum) := by
    rw [hcid]
    apply map_congr_mem
    intro k hkmem
    rw [mem_sortedUnique, ← hid] at hkmem
    exact terminal_score data_score k tc nb_tc hw htc hkmem
  rw [hy, hs]

/-- C9 witness: three points over trajectories {0, 1} with two score columns,
`labels = [0, 1]`: the returned dictionary has keys {0, 1} and each entry is
the ROC oracle's triple on the membership indicator and the per-trajectory
terminal (total) cumulative scores, with positive class `true`. -/
theorem C9_roc_dict_w :
    create_roc_dict trivRoc trivAuc dataO9 dataS9 [0, 1] 2
      = some ((rangeFrom 0 2).map (fun tc =>
          let ids := sortedUnique (dataO9.map Row.id_traj)
          let y := ids.map (fun k => ([0, 1] : List Nat).getD k 0 == tc)
          let s := ids.map (fun k =>
            ((dataS9.filter (fun r => r.id_traj == k)).map
              (fun r => r.scores.getD tc 0)).sum)
          let t := trivRoc y s true
          (tc, (t.1, t.2.1, trivAuc t.1 t.2.1)))) :=
  C9_roc_dict trivRoc trivAuc dataO9 dataS9 [0, 1] 2 (by decide) (by decide) (by decide)
